import Mathlib

/-!
Shallow embedding of the core reconciliation logic of `seller.py`
(StockReconciler `create_stocks`, PriceReconciler `create_prices`,
PriceNormalizer `price_conversion`, BatchSplitter `divide`, and the
relevant dataflow of `main`), with theorems settling the spec claims.

Python dictionaries read from the supplier feed are modelled by the
`Watch` structure; the code always applies `str(...)` to the `Код` and
`Количество` fields before using them, so the model carries the
stringified values.  In-place mutation of the `offer_ids` list is
modelled by explicit state passing: a function that mutates the list
returns its final state as an extra component.  Python exceptions are
modelled by `Except PyErr`.
-/

/-- Python exceptions raised by the embedded code: `int()` and `range()`
raise `ValueError`, calling `.split` on a non-string raises
`AttributeError`. -/
inductive PyErr where
  | ValueError : PyErr
  | AttributeError : PyErr
deriving DecidableEq, Repr

/-- A supplier stock record (one row of the feed), fields already
stringified as the source does with `str(watch.get(...))`:
`kod` is `Код` (the SKU / offer id), `kolichestvo` is `Количество`
(the quantity), `tsena` is `Цена` (the formatted price). -/
structure Watch where
  kod : String
  kolichestvo : String
  tsena : String
deriving DecidableEq, Repr

/-- One element of the `stocks` list built by `create_stocks`:
`{"offer_id": ..., "stock": ...}`. -/
structure StockUpdate where
  offer_id : String
  stock : Int
deriving DecidableEq, Repr

/-- One element of the `prices` list built by `create_prices`. -/
structure PriceUpdate where
  auto_action_enabled : String
  currency_code : String
  offer_id : String
  old_price : String
  price : String
deriving DecidableEq, Repr

deriving instance DecidableEq for Except

/-- Numeric value of a list of ASCII digit characters. -/
def digitsVal (l : List Char) : Nat :=
  l.foldl (fun acc c => 10 * acc + (c.toNat - 48)) 0

/-- Strip whitespace from both ends of a character list (the whitespace
stripping that Python `int()` performs on its string argument). -/
def pyStrip (l : List Char) : List Char :=
  ((l.dropWhile Char.isWhitespace).reverse.dropWhile Char.isWhitespace).reverse

/-- Models Python `int()` applied to a string: surrounding whitespace is
stripped, an optional single sign is allowed, then one or more ASCII
digits; any other shape raises `ValueError`, modelled as `none`.
(Underscore digit grouping, which the feed never uses, is not modelled.) -/
def pyInt (s : String) : Option Int :=
  match pyStrip s.data with
  | [] => none
  | '-' :: d :: ds =>
      if (d :: ds).all Char.isDigit then some (-(digitsVal (d :: ds) : Int)) else none
  | '-' :: [] => none
  | '+' :: d :: ds =>
      if (d :: ds).all Char.isDigit then some ((digitsVal (d :: ds) : Int)) else none
  | '+' :: [] => none
  | ds => if ds.all Char.isDigit then some ((digitsVal ds : Int)) else none

/-- The quantity bucket of `create_stocks` (lines 269-275 of the source):
`count == ">10"` gives stock 100, `count == "1"` gives stock 0, otherwise
the quantity is parsed with `int(...)`, whose failure is `none`. -/
def bucket_stock (count : String) : Option Int :=
  if count = ">10" then some 100
  else if count = "1" then some 0
  else pyInt count

/-- First loop of `create_stocks` (lines 267-277): walk the feed; a record
whose code is in `offer_ids` emits a stock update and removes the code
from the list (`offer_ids.remove`, i.e. first occurrence).  Returns the
emitted updates and the final state of the mutated `offer_ids` list. -/
def create_stocks_matched : List Watch → List String →
    Except PyErr (List StockUpdate × List String)
  | [], offer_ids => .ok ([], offer_ids)
  | w :: ws, offer_ids =>
      if w.kod ∈ offer_ids then
        match bucket_stock w.kolichestvo with
        | none => .error .ValueError
        | some st =>
            match create_stocks_matched ws (offer_ids.erase w.kod) with
            | .error e => .error e
            | .ok (sts, rem) => .ok (⟨w.kod, st⟩ :: sts, rem)
      else create_stocks_matched ws offer_ids

/-- Embeds `create_stocks` (lines 255-281): the matched loop above, then
the second loop (lines 279-280) appending a zero-stock update for every
offer id still in the list.  The second component is the final state of
the caller's `offer_ids` list (the second loop does not remove). -/
def create_stocks (watch_remnants : List Watch) (offer_ids : List String) :
    Except PyErr (List StockUpdate × List String) :=
  match create_stocks_matched watch_remnants offer_ids with
  | .error e => .error e
  | .ok (sts, rem) => .ok (sts ++ rem.map (fun oid => ⟨oid, 0⟩), rem)

/-- Embeds Python `s.split(sep)` for a one-character separator, on the
character list of the string: always returns a nonempty list of pieces. -/
def pySplit (sep : Char) : List Char → List (List Char)
  | [] => [[]]
  | c :: cs =>
      match pySplit sep cs with
      | [] => [[]]
      | h :: t => if c = sep then [] :: h :: t else (c :: h) :: t

/-- Embeds `price_conversion` (line 339):
`re.sub("[^0-9]", "", price.split(".")[0])` — take the piece of the
string before the first `.` and keep only the ASCII digits. -/
def price_conversion (price : String) : String :=
  String.mk (((pySplit '.' price.data).headD []).filter Char.isDigit)

/-- A dynamically typed Python value passed to `price_conversion`: the
source annotates `price: str` but nothing enforces it; the docstring
shows an `int` argument raising `AttributeError` (no `.split`).  Any
non-string value behaves like `PyInt` here. -/
inductive PyVal where
  | PyStr : String → PyVal
  | PyInt : Int → PyVal
deriving DecidableEq, Repr

/-- Embeds `price_conversion` on a dynamically typed argument: a string is
processed normally, a non-string raises `AttributeError` at
`price.split(".")`. -/
def price_conversion_val : PyVal → Except PyErr String
  | .PyStr s => .ok (price_conversion s)
  | .PyInt _ => .error .AttributeError

/-- Embeds `create_prices` (lines 284-305): emit a price update for each
record whose code is in `offer_ids`; the list is only tested with `in`,
never mutated, so no state is returned. -/
def create_prices : List Watch → List String → List PriceUpdate
  | [], _ => []
  | w :: ws, offer_ids =>
      if w.kod ∈ offer_ids then
        { auto_action_enabled := "UNKNOWN"
          currency_code := "RUB"
          offer_id := w.kod
          old_price := "0"
          price := price_conversion w.tsena } :: create_prices ws offer_ids
      else create_prices ws offer_ids

/-- Ascending Python `range(i, stop, step)` over naturals, driven by
fuel for structural recursion; `fuel = stop + 1` is enough whenever
`0 < step` and `i = 0` (proved below). -/
def pyRangeUp : Nat → Nat → Nat → Nat → List Nat
  | 0, _, _, _ => []
  | fuel + 1, i, stop, step =>
      if i < stop then i :: pyRangeUp fuel (i + step) stop step else []

/-- Embeds Python `range(0, stop, step)` for a natural `stop`: `step = 0`
raises `ValueError` (`none`); a positive step counts up; a negative step
yields nothing, since a descending range starting at 0 with a
nonnegative stop is empty (`0 > stop` fails at once). -/
def pyRange0 (stop : Nat) (step : Int) : Option (List Nat) :=
  if step = 0 then none
  else if 0 < step then some (pyRangeUp (stop + 1) 0 stop step.toNat)
  else some []

/-- Embeds `divide` (lines 377-378): `lst[i : i + n]` for each `i` in
`range(0, len(lst), n)`.  The generator's `ValueError` on `n = 0`
surfaces when its output is consumed; the eager model raises it up
front. -/
def divide {α : Type} (lst : List α) (n : Int) :
    Except PyErr (List (List α)) :=
  match pyRange0 lst.length n with
  | none => .error .ValueError
  | some idxs => .ok (idxs.map fun i => (lst.drop i).take n.toNat)

/-- The dataflow of `main` relevant to price updates (lines 425-429):
`create_stocks` runs first on `offer_ids`, mutating it; `create_prices`
then receives the same (drained) list.  Returns the `prices` list that
`main` goes on to dispatch. -/
def main_prices (watch_remnants : List Watch) (offer_ids : List String) :
    Except PyErr (List PriceUpdate) :=
  match create_stocks watch_remnants offer_ids with
  | .error e => .error e
  | .ok (_, rem) => .ok (create_prices watch_remnants rem)

/-- The function `pySplit` always returns at least one piece, like Python `split`. -/
lemma pySplit_ne_nil (sep : Char) (l : List Char) : pySplit sep l ≠ [] := by
  cases l with
  | nil => simp [pySplit]
  | cons c cs =>
      simp only [pySplit]
      cases pySplit sep cs with
      | nil => simp
      | cons h t => by_cases hc : c = sep <;> simp [hc]

/-- The first piece of a Python `split` is the maximal separator-free
prefix of the string. -/
lemma pySplit_headD (sep : Char) (l : List Char) :
    (pySplit sep l).headD [] = l.takeWhile (fun c => c != sep) := by
  induction l with
  | nil => simp [pySplit]
  | cons c cs ih =>
      simp only [pySplit, List.takeWhile_cons]
      cases heq : pySplit sep cs with
      | nil => exact absurd heq (pySplit_ne_nil sep cs)
      | cons h t =>
          rw [heq] at ih
          by_cases hc : c = sep
          · simp [hc]
          · simpa [hc] using ih

/-- Closed form of `price_conversion`: digits of the maximal dot-free
prefix. -/
lemma price_conversion_eq_takeWhile (s : String) :
    price_conversion s =
      String.mk ((s.data.takeWhile (fun c => c != '.')).filter Char.isDigit) := by
  unfold price_conversion
  rw [pySplit_headD]

/-- C4: for every string input, `price_conversion` returns the substring
before the first `.` with every non-digit character stripped; in
particular it maps `"19'990.00 руб."` to `"19990"` and
`"5'990.00 руб."` to `"5990"`. -/
theorem price_conversion_takes_integer_part_digits :
    (∀ s : String, price_conversion s =
      String.mk ((s.data.takeWhile (fun c => c != '.')).filter Char.isDigit)) ∧
    price_conversion "19'990.00 руб." = "19990" ∧
    price_conversion "5'990.00 руб." = "5990" :=
  ⟨price_conversion_eq_takeWhile, by decide, by decide⟩

/-- C5 counterexample: a string input containing no `.` does not make
`price_conversion` fail — `"5990"` is returned unchanged, because Python
`split` on an absent separator returns the whole string as piece 0. -/
theorem price_conversion_no_dot_still_ok :
    price_conversion_val (.PyStr "5990") = .ok "5990" := by decide

/-- C5 (amended): `price_conversion` fails (with `AttributeError`) for
every non-string input, but never for a string input; a string with no
`.` is processed successfully, the whole string serving as the integer
part, which is then stripped to its digits. -/
theorem price_conversion_val_error_cases :
    (∀ n : Int, price_conversion_val (.PyInt n) = .error .AttributeError) ∧
    (∀ s : String, ∃ r, price_conversion_val (.PyStr s) = .ok r) ∧
    (∀ s : String, (∀ c ∈ s.data, c ≠ '.') →
      price_conversion_val (.PyStr s) =
        .ok (String.mk (s.data.filter Char.isDigit))) := by
  refine ⟨fun _ => rfl, fun s => ⟨price_conversion s, rfl⟩, fun s hs => ?_⟩
  have hself : s.data.takeWhile (fun c => c != '.') = s.data :=
    List.takeWhile_eq_self_iff.mpr (by simpa using hs)
  simp only [price_conversion_val, price_conversion_eq_takeWhile, hself]

/-- Witness for the amended C5 theorem at the dot-free string `"a1b2"`. -/
theorem price_conversion_val_error_cases_w :
    (∀ c ∈ ("a1b2" : String).data, c ≠ '.') ∧
    price_conversion_val (.PyStr "a1b2") =
      .ok (String.mk (("a1b2" : String).data.filter Char.isDigit)) :=
  ⟨by decide, price_conversion_val_error_cases.2.2 "a1b2" (by decide)⟩

/-- Take/drop chunking of a list into pieces of `m` elements, fuel-driven
(proof device used to describe `divide`'s output; `fuel ≥ l.length`
suffices when `0 < m`). -/
def chunksTD {α : Type} (m : Nat) : Nat → List α → List (List α)
  | _, [] => []
  | 0, _ :: _ => []
  | fuel + 1, a :: l => ((a :: l).take m) :: chunksTD m fuel ((a :: l).drop m)

lemma chunksTD_nil {α : Type} (m fuel : Nat) :
    chunksTD (α := α) m fuel [] = [] := by
  cases fuel <;> rfl

lemma pyRange0_pos (stop : Nat) (n : Int) (hn : 0 < n) :
    pyRange0 stop n = some (pyRangeUp (stop + 1) 0 stop n.toNat) := by
  unfold pyRange0
  rw [if_neg (by omega), if_pos hn]

/-- Mapping the slicing function over the ascending range is exactly
take/drop chunking of the remaining suffix. -/
lemma pyRangeUp_map_slice {α : Type} (m : Nat) (hm : 0 < m) (lst : List α) :
    ∀ (fuel i : Nat), lst.length ≤ i + fuel →
      (pyRangeUp fuel i lst.length m).map (fun j => (lst.drop j).take m) =
        chunksTD m fuel (lst.drop i) := by
  intro fuel
  induction fuel with
  | zero =>
      intro i hle
      rw [List.drop_eq_nil_of_le (by omega)]
      simp [pyRangeUp, chunksTD_nil]
  | succ f ih =>
      intro i hle
      by_cases hi : i < lst.length
      · obtain ⟨a, l', hdrop⟩ : ∃ a l', lst.drop i = a :: l' := by
          cases h : lst.drop i with
          | nil =>
              have := List.length_drop i lst
              rw [h] at this
              simp at this
              omega
          | cons a l' => exact ⟨a, l', rfl⟩
        simp only [pyRangeUp, if_pos hi, List.map_cons]
        rw [hdrop]
        simp only [chunksTD]
        have hdd : (lst.drop i).drop m = lst.drop (i + m) := List.drop_drop m i lst
        rw [← hdrop, ih (i + m) (by omega), hdd]
      · rw [List.drop_eq_nil_of_le (by omega)]
        simp [pyRangeUp, if_neg hi, chunksTD_nil]

/-- For a positive chunk size, `divide` succeeds and returns the
take/drop chunking. -/
lemma divide_pos_eq {α : Type} (lst : List α) (n : Int) (hn : 0 < n) :
    divide lst n = .ok (chunksTD n.toNat (lst.length + 1) lst) := by
  unfold divide
  simp only [pyRange0_pos _ _ hn]
  rw [pyRangeUp_map_slice n.toNat (by omega) lst (lst.length + 1) 0 (by omega)]
  rfl

lemma chunksTD_flatten {α : Type} (m : Nat) (hm : 0 < m) :
    ∀ (fuel : Nat) (l : List α), l.length ≤ fuel →
      (chunksTD m fuel l).flatten = l := by
  intro fuel
  induction fuel with
  | zero =>
      intro l hl
      cases l with
      | nil => simp [chunksTD_nil]
      | cons a l' => simp at hl
  | succ f ih =>
      intro l hl
      cases l with
      | nil => simp [chunksTD_nil]
      | cons a l' =>
          simp only [chunksTD, List.flatten_cons]
          rw [ih ((a :: l').drop m) (by rw [List.length_drop]; simp at hl ⊢; omega)]
          exact List.take_append_drop m (a :: l')

lemma chunksTD_mem_length {α : Type} (m : Nat) :
    ∀ (fuel : Nat) (l : List α), ∀ c ∈ chunksTD m fuel l, c.length ≤ m := by
  intro fuel
  induction fuel with
  | zero =>
      intro l c hc
      cases l <;> simp [chunksTD_nil, chunksTD] at hc
  | succ f ih =>
      intro l c hc
      cases l with
      | nil => simp [chunksTD_nil] at hc
      | cons a l' =>
          simp only [chunksTD, List.mem_cons] at hc
          rcases hc with rfl | hc
          · exact List.length_take_le m (a :: l')
          · exact ih _ c hc

lemma chunksTD_dropLast_length {α : Type} (m : Nat) (hm : 0 < m) :
    ∀ (fuel : Nat) (l : List α), l.length ≤ fuel →
      ∀ c ∈ (chunksTD m fuel l).dropLast, c.length = m := by
  intro fuel
  induction fuel with
  | zero =>
      intro l hl c hc
      cases l with
      | nil => simp [chunksTD_nil] at hc
      | cons a l' => simp at hl
  | succ f ih =>
      intro l hl c hc
      cases l with
      | nil => simp [chunksTD_nil] at hc
      | cons a l' =>
          simp only [chunksTD] at hc
          cases hr : chunksTD m f ((a :: l').drop m) with
          | nil => rw [hr] at hc; simp at hc
          | cons r rs =>
              rw [hr, List.dropLast_cons₂, List.mem_cons] at hc
              rcases hc with rfl | hc
              · have hne : (a :: l').drop m ≠ [] := by
                  intro h0
                  rw [h0, chunksTD_nil] at hr
                  exact (List.cons_ne_nil r rs) hr.symm
                have hlen : m ≤ (a :: l').length := by
                  by_contra hcon
                  exact hne (List.drop_eq_nil_of_le (by omega))
                rw [List.length_take]
                omega
              · exact ih ((a :: l').drop m)
                  (by rw [List.length_drop]; simp at hl ⊢; omega) c
                  (by rw [hr]; exact hc)

/-- C6: for every list and positive size, `divide` succeeds, every chunk
has length at most the size, the chunks concatenate back to the list in
order, only the last chunk may be shorter; `divide [1,2,3,4,5] 2`
yields `[[1,2],[3,4],[5]]` and `divide [] n` yields no chunks. -/
theorem divide_chunks_spec {α : Type} (lst : List α) (n : Int) (hn : 0 < n) :
    (∃ chunks, divide lst n = .ok chunks ∧
      chunks.flatten = lst ∧
      (∀ c ∈ chunks, c.length ≤ n.toNat) ∧
      (∀ c ∈ chunks.dropLast, c.length = n.toNat)) ∧
    divide [1, 2, 3, 4, 5] (2 : Int) = .ok [[1, 2], [3, 4], [5]] ∧
    divide ([] : List α) n = .ok [] := by
  have hm : 0 < n.toNat := by omega
  refine ⟨⟨chunksTD n.toNat (lst.length + 1) lst, divide_pos_eq lst n hn,
    chunksTD_flatten _ hm _ _ (by omega),
    chunksTD_mem_length _ _ _,
    chunksTD_dropLast_length _ hm _ _ (by omega)⟩, by decide, ?_⟩
  rw [divide_pos_eq [] n hn]
  rfl

/-- Witness for C6 at `lst = [9, 8, 7]`, `n = 2`. -/
theorem divide_chunks_spec_w :
    (0 : Int) < 2 ∧
    ((∃ chunks, divide [(9 : Nat), 8, 7] (2 : Int) = .ok chunks ∧
      chunks.flatten = [9, 8, 7] ∧
      (∀ c ∈ chunks, c.length ≤ (2 : Int).toNat) ∧
      (∀ c ∈ chunks.dropLast, c.length = (2 : Int).toNat)) ∧
    divide [1, 2, 3, 4, 5] (2 : Int) = .ok [[1, 2], [3, 4], [5]] ∧
    divide ([] : List Nat) (2 : Int) = .ok []) :=
  ⟨by decide, divide_chunks_spec [9, 8, 7] 2 (by decide)⟩

/-- C7 counterexample: a negative size does not make `divide` fail — the
underlying `range(0, len, -1)` is simply empty, so no chunks and no
error are produced. -/
theorem divide_neg_size_no_error :
    divide [(1 : Nat), 2, 3] (-1) = .ok [] := by decide

/-- C7 (amended): `divide` fails with `ValueError` exactly at size 0; a
negative size yields no chunks (and no error) when consumed. -/
theorem divide_nonpos_spec {α : Type} (lst : List α) (n : Int) :
    divide lst (0 : Int) = (.error .ValueError : Except PyErr (List (List α))) ∧
    (n < 0 → divide lst n = .ok []) := by
  constructor
  · unfold divide pyRange0
    simp
  · intro hn
    unfold divide pyRange0
    rw [if_neg (by omega), if_neg (by omega)]
    rfl

/-- Witness for the amended C7 theorem at `lst = [5, 6]`, `n = -2`. -/
theorem divide_nonpos_spec_w :
    (-2 : Int) < 0 ∧ divide [(5 : Nat), 6] (-2) = .ok [] ∧
    divide [(5 : Nat), 6] (0 : Int) = .error .ValueError :=
  ⟨by decide, (divide_nonpos_spec [5, 6] (-2)).2 (by decide),
    (divide_nonpos_spec [5, 6] (-2)).1⟩

/-- The final state of the offer-id list after the matched loop is a
sublist of the initial one: the loop only removes. -/
lemma create_stocks_matched_sublist :
    ∀ (ws : List Watch) (oids : List String) (msts : List StockUpdate)
      (rem : List String),
      create_stocks_matched ws oids = .ok (msts, rem) → rem.Sublist oids := by
  intro ws
  induction ws with
  | nil =>
      intro oids msts rem h
      simp only [create_stocks_matched, Except.ok.injEq, Prod.mk.injEq] at h
      rw [← h.2]
  | cons w ws ih =>
      intro oids msts rem h
      simp only [create_stocks_matched] at h
      by_cases hmem : w.kod ∈ oids
      · rw [if_pos hmem] at h
        cases hb : bucket_stock w.kolichestvo with
        | none => rw [hb] at h; exact absurd h (by simp)
        | some st =>
            rw [hb] at h
            cases hrec : create_stocks_matched ws (oids.erase w.kod) with
            | error e => rw [hrec] at h; exact absurd h (by simp)
            | ok p =>
                obtain ⟨sts, rem'⟩ := p
                rw [hrec] at h
                simp only [Except.ok.injEq, Prod.mk.injEq] at h
                rw [← h.2]
                exact (ih _ _ _ hrec).trans (List.erase_sublist _ _)
      · rw [if_neg hmem] at h
        exact ih _ _ _ h

/-- A code matched during the matched loop is gone from the final list,
provided the initial list has no duplicates: every record's code is
absent from the drained list. -/
lemma create_stocks_matched_kod_not_in_rem :
    ∀ (ws : List Watch) (oids : List String) (msts : List StockUpdate)
      (rem : List String),
      oids.Nodup → create_stocks_matched ws oids = .ok (msts, rem) →
      ∀ w ∈ ws, w.kod ∉ rem := by
  intro ws
  induction ws with
  | nil => intro oids msts rem _ _ w hw; exact absurd hw (List.not_mem_nil w)
  | cons w ws ih =>
      intro oids msts rem hnd h w' hw'
      simp only [create_stocks_matched] at h
      by_cases hmem : w.kod ∈ oids
      · rw [if_pos hmem] at h
        cases hb : bucket_stock w.kolichestvo with
        | none => rw [hb] at h; exact absurd h (by simp)
        | some st =>
            rw [hb] at h
            cases hrec : create_stocks_matched ws (oids.erase w.kod) with
            | error e => rw [hrec] at h; exact absurd h (by simp)
            | ok p =>
                obtain ⟨sts, rem'⟩ := p
                rw [hrec] at h
                simp only [Except.ok.injEq, Prod.mk.injEq] at h
                obtain ⟨-, hrem⟩ := h
                subst hrem
                rcases List.mem_cons.mp hw' with rfl | hw'
                · intro hin
                  have hsub := create_stocks_matched_sublist ws _ _ _ hrec
                  have := (hnd.mem_erase_iff.mp (hsub.subset hin)).1
                  exact this rfl
                · exact ih _ _ _ (hnd.erase w.kod) hrec w' hw'
      · rw [if_neg hmem] at h
        rcases List.mem_cons.mp hw' with rfl | hw'
        · intro hin
          exact hmem ((create_stocks_matched_sublist ws _ _ _ h).subset hin)
        · exact ih _ _ _ hnd h w' hw'

/-- The function `create_prices` emits nothing when no record code is in the list. -/
lemma create_prices_nil_of_disjoint :
    ∀ (ws : List Watch) (ids : List String),
      (∀ w ∈ ws, w.kod ∉ ids) → create_prices ws ids = [] := by
  intro ws
  induction ws with
  | nil => intro ids _; rfl
  | cons w ws ih =>
      intro ids hdis
      simp only [create_prices]
      rw [if_neg (hdis w (List.mem_cons_self w ws))]
      exact ih ids fun w' hw' => hdis w' (List.mem_cons_of_mem w hw')

/-- The multiset of codes removed by the matched loop is exactly the
multiset of emitted offer ids: emitted offer ids plus the drained list
form a permutation of the initial list. -/
lemma create_stocks_matched_perm :
    ∀ (ws : List Watch) (oids : List String) (msts : List StockUpdate)
      (rem : List String),
      create_stocks_matched ws oids = .ok (msts, rem) →
      ((msts.map StockUpdate.offer_id) ++ rem).Perm oids := by
  intro ws
  induction ws with
  | nil =>
      intro oids msts rem h
      simp only [create_stocks_matched, Except.ok.injEq, Prod.mk.injEq] at h
      rw [← h.1, ← h.2]
      simp
  | cons w ws ih =>
      intro oids msts rem h
      simp only [create_stocks_matched] at h
      by_cases hmem : w.kod ∈ oids
      · rw [if_pos hmem] at h
        cases hb : bucket_stock w.kolichestvo with
        | none => rw [hb] at h; exact absurd h (by simp)
        | some st =>
            rw [hb] at h
            cases hrec : create_stocks_matched ws (oids.erase w.kod) with
            | error e => rw [hrec] at h; exact absurd h (by simp)
            | ok p =>
                obtain ⟨sts, rem'⟩ := p
                rw [hrec] at h
                simp only [Except.ok.injEq, Prod.mk.injEq] at h
                obtain ⟨hmsts, hrem⟩ := h
                subst hmsts; subst hrem
                simp only [List.map_cons, List.cons_append]
                exact ((ih _ _ _ hrec).cons w.kod).trans
                  (List.perm_cons_erase hmem).symm
      · rw [if_neg hmem] at h
        exact ih _ _ _ h

/-- C1: for a duplicate-free offer-id list and any feed on which
`create_stocks` succeeds, the output holds exactly one stock update per
offer id of the list — count 1 for members, count 0 for non-members, no
duplicate offer ids — and every never-matched id appears with stock 0. -/
theorem create_stocks_exactly_one_per_offer
    (ws : List Watch) (oids : List String) (stocks : List StockUpdate)
    (rem : List String) (hnd : oids.Nodup)
    (h : create_stocks ws oids = .ok (stocks, rem)) :
    (∀ x ∈ oids, (stocks.map StockUpdate.offer_id).count x = 1) ∧
    (∀ x : String, x ∉ oids → (stocks.map StockUpdate.offer_id).count x = 0) ∧
    (stocks.map StockUpdate.offer_id).Nodup ∧
    (∀ oid ∈ rem, StockUpdate.mk oid 0 ∈ stocks) := by
  unfold create_stocks at h
  cases hm : create_stocks_matched ws oids with
  | error e => rw [hm] at h; exact absurd h (by simp)
  | ok p =>
      obtain ⟨msts, rem'⟩ := p
      rw [hm] at h
      simp only [Except.ok.injEq, Prod.mk.injEq] at h
      obtain ⟨hstocks, hrem⟩ := h
      have hperm : ((msts.map StockUpdate.offer_id) ++ rem).Perm oids := by
        rw [← hrem]
        exact create_stocks_matched_perm ws oids msts rem' hm
      have hstocks' : stocks = msts ++ rem.map fun oid => StockUpdate.mk oid 0 := by
        rw [← hstocks, hrem]
      rw [hstocks']
      have hproj : ∀ l : List String,
          (l.map fun oid => StockUpdate.mk oid 0).map StockUpdate.offer_id = l := by
        intro l
        induction l with
        | nil => rfl
        | cons a t iht => simp only [List.map_cons, iht]
      have hmap : ((msts ++ rem.map fun oid => StockUpdate.mk oid 0).map
          StockUpdate.offer_id) = msts.map StockUpdate.offer_id ++ rem := by
        rw [List.map_append, hproj]
      rw [hmap]
      refine ⟨fun x hx => ?_, fun x hx => ?_, ?_, fun oid hoid => ?_⟩
      · rw [hperm.count_eq x]
        exact List.count_eq_one_of_mem hnd hx
      · rw [hperm.count_eq x]
        exact List.count_eq_zero_of_not_mem hx
      · exact hperm.nodup_iff.mpr hnd
      · exact List.mem_append_right msts (List.mem_map_of_mem _ hoid)

/-- Witness for C1 at one matched record and one unmatched offer id. -/
theorem create_stocks_exactly_one_per_offer_w :
    List.Nodup ["A", "B"] ∧
    ((∀ x ∈ ["A", "B"],
        (([StockUpdate.mk "A" 5,
           StockUpdate.mk "B" 0].map StockUpdate.offer_id).count x = 1)) ∧
      (∀ x : String, x ∉ ["A", "B"] →
        (([StockUpdate.mk "A" 5,
           StockUpdate.mk "B" 0].map StockUpdate.offer_id).count x = 0)) ∧
      ([StockUpdate.mk "A" 5,
        StockUpdate.mk "B" 0].map StockUpdate.offer_id).Nodup ∧
      (∀ oid ∈ ["B"], StockUpdate.mk oid 0 ∈
        [StockUpdate.mk "A" 5, StockUpdate.mk "B" 0])) :=
  ⟨by decide, create_stocks_exactly_one_per_offer
    [⟨"A", "5", "1.0"⟩] ["A", "B"] [⟨"A", 5⟩, ⟨"B", 0⟩] ["B"]
    (by decide) (by decide)⟩

/-- C2 counterexample: with the duplicated offer-id list `["A", "A"]`
and one matching record, `create_stocks` succeeds but `main` still
dispatches a price update — the drained list keeps a copy of `"A"`, so
the `create_prices` call inside `main` is not empty. -/
theorem main_prices_nonempty_with_duplicate :
    main_prices [⟨"A", "5", "1.0"⟩] ["A", "A"] =
      .ok [⟨"UNKNOWN", "RUB", "A", "0", "1"⟩] ∧
    main_prices [⟨"A", "5", "1.0"⟩] ["A", "A"] ≠ .ok [] := by
  constructor
  · decide
  · decide

/-- C2 (amended): when the offer-id list has no duplicate entries, every
successful run of `main`'s stock-then-price dataflow produces an empty
price list — `main` never dispatches a price update. -/
theorem main_prices_empty_of_nodup
    (ws : List Watch) (oids : List String) (ps : List PriceUpdate)
    (hnd : oids.Nodup) (h : main_prices ws oids = .ok ps) : ps = [] := by
  unfold main_prices at h
  cases hs : create_stocks ws oids with
  | error e => rw [hs] at h; exact absurd h (by simp)
  | ok p =>
      obtain ⟨st, rem⟩ := p
      rw [hs] at h
      simp only [Except.ok.injEq] at h
      unfold create_stocks at hs
      cases hm : create_stocks_matched ws oids with
      | error e => rw [hm] at hs; exact absurd hs (by simp)
      | ok q =>
          obtain ⟨msts, rem₀⟩ := q
          rw [hm] at hs
          simp only [Except.ok.injEq, Prod.mk.injEq] at hs
          obtain ⟨-, hrem⟩ := hs
          subst hrem
          rw [← h]
          exact create_prices_nil_of_disjoint ws rem₀
            (create_stocks_matched_kod_not_in_rem ws oids msts rem₀ hnd hm)

/-- Witness for the amended C2 theorem on a duplicate-free list. -/
theorem main_prices_empty_of_nodup_w :
    List.Nodup ["A", "B"] ∧ ([] : List PriceUpdate) = [] :=
  ⟨by decide, main_prices_empty_of_nodup [⟨"A", "5", "1.0"⟩] ["A", "B"] []
    (by decide) (by decide)⟩

/-- If the head record is matched and its bucket value is `st`, a
successful `create_stocks` starts with that record's stock update. -/
lemma create_stocks_head_emit
    (w : Watch) (ws : List Watch) (oids : List String)
    (stocks : List StockUpdate) (rem : List String) (st : Int)
    (hmem : w.kod ∈ oids) (hb : bucket_stock w.kolichestvo = some st)
    (h : create_stocks (w :: ws) oids = .ok (stocks, rem)) :
    ∃ rest, stocks = ⟨w.kod, st⟩ :: rest := by
  unfold create_stocks at h
  cases hm : create_stocks_matched (w :: ws) oids with
  | error e => rw [hm] at h; exact absurd h (by simp)
  | ok p =>
      obtain ⟨msts, rem'⟩ := p
      rw [hm] at h
      simp only [Except.ok.injEq, Prod.mk.injEq] at h
      obtain ⟨hstocks, -⟩ := h
      simp only [create_stocks_matched, if_pos hmem, hb] at hm
      cases hrec : create_stocks_matched ws (oids.erase w.kod) with
      | error e => rw [hrec] at hm; exact absurd hm (by simp)
      | ok q =>
          obtain ⟨sts, rem₂⟩ := q
          rw [hrec] at hm
          simp only [Except.ok.injEq, Prod.mk.injEq] at hm
          obtain ⟨hmsts, -⟩ := hm
          rw [← hstocks, ← hmsts]
          exact ⟨sts ++ rem'.map fun oid => StockUpdate.mk oid 0, by simp⟩

/-- C3: a matched record's stock follows the bucket rule — quantity
`">10"` gives stock 100, quantity `"1"` gives stock 0, and any other
quantity gives its integer parse. -/
theorem create_stocks_bucket_rule
    (w : Watch) (ws : List Watch) (oids : List String)
    (stocks : List StockUpdate) (rem : List String)
    (hmem : w.kod ∈ oids)
    (h : create_stocks (w :: ws) oids = .ok (stocks, rem)) :
    (w.kolichestvo = ">10" → ∃ rest, stocks = ⟨w.kod, 100⟩ :: rest) ∧
    (w.kolichestvo = "1" → ∃ rest, stocks = ⟨w.kod, 0⟩ :: rest) ∧
    (∀ k : Int, w.kolichestvo ≠ ">10" → w.kolichestvo ≠ "1" →
      pyInt w.kolichestvo = some k →
      ∃ rest, stocks = ⟨w.kod, k⟩ :: rest) := by
  refine ⟨fun hq => ?_, fun hq => ?_, fun k hq1 hq2 hp => ?_⟩
  · exact create_stocks_head_emit w ws oids stocks rem 100 hmem
      (by simp [bucket_stock, hq]) h
  · exact create_stocks_head_emit w ws oids stocks rem 0 hmem
      (by simp [bucket_stock, hq]) h
  · exact create_stocks_head_emit w ws oids stocks rem k hmem
      (by simp [bucket_stock, hq1, hq2, hp]) h

/-- Witness for C3: the record with quantity `"7"` yields stock 7. -/
theorem create_stocks_bucket_rule_w :
    ∃ rest, [StockUpdate.mk "A" 7] = StockUpdate.mk "A" 7 :: rest :=
  (create_stocks_bucket_rule ⟨"A", "7", "x"⟩ [] ["A"] [⟨"A", 7⟩] []
    (by decide) (by decide)).2.2 7 (by decide) (by decide) (by decide)

/-- Filter/map form of `create_prices`. -/
lemma create_prices_filter_map (ws : List Watch) (oids : List String) :
    create_prices ws oids =
      (ws.filter fun w => decide (w.kod ∈ oids)).map
        fun w => PriceUpdate.mk "UNKNOWN" "RUB" w.kod "0"
          (price_conversion w.tsena) := by
  induction ws with
  | nil => rfl
  | cons w ws ih =>
      simp only [create_prices, List.filter_cons]
      by_cases hx : w.kod ∈ oids
      · simp [hx, ih]
      · simp [hx, ih]

/-- C8: `create_prices` emits a price update exactly for the records
whose code is in the offer-id list, with `offer_id` the code, `price`
the normalized record price, and the fixed fields `old_price = "0"`,
`currency_code = "RUB"`, `auto_action_enabled = "UNKNOWN"`; every
emitted update comes from some feed record, so an offer id absent from
the feed never gets one. -/
theorem create_prices_emits_exactly_matched (ws : List Watch) (oids : List String) :
    create_prices ws oids =
      (ws.filter fun w => decide (w.kod ∈ oids)).map
        (fun w => PriceUpdate.mk "UNKNOWN" "RUB" w.kod "0"
          (price_conversion w.tsena)) ∧
    ∀ p ∈ create_prices ws oids, ∃ w ∈ ws, w.kod ∈ oids ∧
      p = PriceUpdate.mk "UNKNOWN" "RUB" w.kod "0" (price_conversion w.tsena) := by
  refine ⟨create_prices_filter_map ws oids, fun p hp => ?_⟩
  rw [create_prices_filter_map ws oids] at hp
  obtain ⟨w, hwf, hpw⟩ := List.mem_map.mp hp
  obtain ⟨hws, hdec⟩ := List.mem_filter.mp hwf
  exact ⟨w, hws, of_decide_eq_true hdec, hpw.symm⟩

/-- Witness for C8 at one matched record. -/
theorem create_prices_emits_exactly_matched_w :
    ∃ w ∈ [Watch.mk "A" "5" "1.0"], w.kod ∈ ["A"] ∧
      PriceUpdate.mk "UNKNOWN" "RUB" "A" "0" "1" =
        PriceUpdate.mk "UNKNOWN" "RUB" w.kod "0" (price_conversion w.tsena) :=
  (create_prices_emits_exactly_matched [⟨"A", "5", "1.0"⟩] ["A"]).2
    (PriceUpdate.mk "UNKNOWN" "RUB" "A" "0" "1") (by decide)

/-- The function `create_prices` only tests the offer-id list for membership, so any
two membership-equivalent lists give the same output. -/
lemma create_prices_mem_congr :
    ∀ (ws : List Watch) (oids oids' : List String),
      (∀ x, x ∈ oids ↔ x ∈ oids') →
      create_prices ws oids = create_prices ws oids' := by
  intro ws
  induction ws with
  | nil => intro _ _ _; rfl
  | cons w ws ih =>
      intro oids oids' h
      simp only [create_prices]
      by_cases hx : w.kod ∈ oids
      · rw [if_pos hx, if_pos ((h w.kod).mp hx), ih oids oids' h]
      · rw [if_neg hx, if_neg (fun hx' => hx ((h w.kod).mpr hx')), ih oids oids' h]

/-- C9: the StockReconciler's matched loop removes from the offer-id
list exactly the offer ids it emits (emitted ids plus the drained list
permute the input list), while the PriceReconciler only tests the list
for membership — its output is invariant under membership-equivalent
lists and the list itself is untouched (the embedding returns no
modified list because no statement of `create_prices` mutates it). -/
theorem reconcilers_offer_ids_frame :
    (∀ (ws : List Watch) (oids : List String) (msts : List StockUpdate)
      (rem : List String),
      create_stocks_matched ws oids = .ok (msts, rem) →
      ((msts.map StockUpdate.offer_id) ++ rem).Perm oids) ∧
    (∀ (ws : List Watch) (oids oids' : List String),
      (∀ x, x ∈ oids ↔ x ∈ oids') →
      create_prices ws oids = create_prices ws oids') :=
  ⟨create_stocks_matched_perm, create_prices_mem_congr⟩

/-- Witness for C9: a concrete drained run and a concrete reordering. -/
theorem reconcilers_offer_ids_frame_w :
    (([StockUpdate.mk "A" 5].map StockUpdate.offer_id ++ ["B"]).Perm
      ["A", "B"]) ∧
    create_prices [⟨"A", "5", "1.0"⟩] ["A", "X"] =
      create_prices [⟨"A", "5", "1.0"⟩] ["X", "A"] :=
  ⟨reconcilers_offer_ids_frame.1 [⟨"A", "5", "1.0"⟩] ["A", "B"]
      [⟨"A", 5⟩] ["B"] (by decide),
    reconcilers_offer_ids_frame.2 [⟨"A", "5", "1.0"⟩] ["A", "X"] ["X", "A"]
      (fun x => by simp [List.mem_cons, or_comm])⟩

/-- An error in the matched loop on a suffix of the feed aborts the
matched loop on the whole feed. -/
lemma create_stocks_matched_append_error :
    ∀ (xs ys : List Watch) (oids : List String) (sts : List StockUpdate)
      (rem : List String) (e : PyErr),
      create_stocks_matched xs oids = .ok (sts, rem) →
      create_stocks_matched ys rem = .error e →
      create_stocks_matched (xs ++ ys) oids = .error e := by
  intro xs
  induction xs with
  | nil =>
      intro ys oids sts rem e h1 h2
      simp only [create_stocks_matched, Except.ok.injEq, Prod.mk.injEq] at h1
      rw [List.nil_append, h1.2]
      exact h2
  | cons w xs ih =>
      intro ys oids sts rem e h1 h2
      simp only [create_stocks_matched] at h1
      rw [List.cons_append]
      simp only [create_stocks_matched]
      by_cases hmem : w.kod ∈ oids
      · rw [if_pos hmem] at h1 ⊢
        cases hb : bucket_stock w.kolichestvo with
        | none => rw [hb] at h1; exact absurd h1 (by simp)
        | some st =>
            rw [hb] at h1
            cases hrec : create_stocks_matched xs (oids.erase w.kod) with
            | error e' => rw [hrec] at h1; exact absurd h1 (by simp)
            | ok q =>
                obtain ⟨sts1, rem1⟩ := q
                rw [hrec] at h1
                simp only [Except.ok.injEq, Prod.mk.injEq] at h1
                rw [ih ys (oids.erase w.kod) sts1 rem e
                  (by rw [hrec, h1.2]) h2]
      · rw [if_neg hmem] at h1 ⊢
        exact ih ys oids sts rem e h1 h2

/-- C10: if the feed contains a record that gets matched (its code is
still present when the loop reaches it) and whose quantity is neither
`">10"` nor `"1"` nor parseable as an integer, `create_stocks` on the
whole feed fails with `ValueError` — no partial result, no per-record
skip, whatever records follow. -/
theorem create_stocks_invalid_quantity_aborts
    (ws₁ : List Watch) (w : Watch) (ws₂ : List Watch) (oids : List String)
    (sts₁ : List StockUpdate) (rem₁ : List String)
    (h₁ : create_stocks_matched ws₁ oids = .ok (sts₁, rem₁))
    (hmem : w.kod ∈ rem₁)
    (hq : w.kolichestvo ≠ ">10") (hq1 : w.kolichestvo ≠ "1")
    (hp : pyInt w.kolichestvo = none) :
    create_stocks (ws₁ ++ w :: ws₂) oids = .error .ValueError := by
  have hb : bucket_stock w.kolichestvo = none := by
    simp [bucket_stock, hq, hq1, hp]
  have he : create_stocks_matched (w :: ws₂) rem₁ = .error .ValueError := by
    simp only [create_stocks_matched, if_pos hmem, hb]
  have happ := create_stocks_matched_append_error ws₁ (w :: ws₂) oids sts₁
    rem₁ .ValueError h₁ he
  unfold create_stocks
  rw [happ]

/-- Witness for C10: the quantity `"abc"` aborts the whole run even
though a valid record follows. -/
theorem create_stocks_invalid_quantity_aborts_w :
    create_stocks ([] ++ Watch.mk "A" "abc" "x" :: [Watch.mk "B" "1" "y"])
      ["A", "B"] = .error .ValueError :=
  create_stocks_invalid_quantity_aborts [] ⟨"A", "abc", "x"⟩
    [⟨"B", "1", "y"⟩] ["A", "B"] [] ["A", "B"] (by decide) (by decide)
    (by decide) (by decide) (by decide)

